import Mathlib

/-!
Verification of the commit-message selection tool (src/src/main.rs).

The program has three parts with checkable content:

* `select_commit_message` (main.rs lines 73-120): an interactive list
  selector.  It keeps a `usize` cursor `index` starting at 0 and loops,
  dispatching on one key event per iteration:
  Up decrements the cursor when `index > 0`; Down increments it when
  `index < commit_messages.len() - 1`; Enter breaks the loop and the
  function returns `Some(commit_messages[index].clone())`; Esc returns
  `None`; every other event changes nothing.  Rendering and the erase of
  the rendered lines are terminal I/O with no influence on the returned
  value and are not part of the state machine modelled here; the raw-mode
  toggling around the blocking read is modelled separately (`keyReadStep`).

* the per-choice post-processing in `get_suggested_commit_messages`
  (lines 60-68): `let s = choice.message.content.trim();` followed by
  `if s.starts_with('"') && s.ends_with('"') { &s[1..s.len() - 1] } else { &s }`.

* the empty-diff check in `main` (lines 158-161):
  `if git_diff.trim().is_empty() { eprintln!(...); return; }`.

Machine integers (`usize`) are modelled as `Nat`, with the wraparound of
the one subtraction that can underflow (`commit_messages.len() - 1`)
made explicit.  Rust panics are modelled as distinguished outcomes.
-/

/-- The key-event vocabulary consumed by the selector.  `other` stands for
every event that is not Up/Down/Enter/Esc (including non-key events),
all of which hit the `_ => {}` arm of the `match`. -/
inductive Key where
  | up
  | down
  | enter
  | esc
  | other
deriving DecidableEq

/-- Result of running the selector on a finite queue of input events.
`selected` / `cancelled` are the `Some` / `None` returns of
`select_commit_message`; `pending` means the event queue was exhausted
while the loop was still running (the real program would block on
`event::read()` waiting for another key); `outOfRange` is the Rust panic
raised by `commit_messages[index]` when `index` is out of bounds. -/
inductive Outcome where
  | selected (s : String)
  | cancelled
  | pending
  | outOfRange
deriving DecidableEq

/-- The value of `commit_messages.len() - 1` as computed on `usize` in a
release build: for `n = 0` the subtraction wraps around to `2 ^ 64 - 1`
(a debug build would panic right at the subtraction; the claims about
the empty list are settled on the Enter path, where both build modes
agree that the program panics).  A `Vec` length always fits in `usize`,
so `n < 2 ^ 64` wherever this is applied. -/
def usizeWrapSub1 (n : Nat) : Nat :=
  if n = 0 then 2 ^ 64 - 1 else n - 1

/-- Cursor update performed by one dispatch of the `match` in
`select_commit_message` for the keys that continue the loop:
Up does `if index > 0 { index -= 1 }`, Down does
`if index < commit_messages.len() - 1 { index += 1 }` (the guard keeps
`index + 1` below `2 ^ 64`, so the increment itself cannot wrap), and
every other continuing key leaves the cursor alone.  For Enter and Esc
the loop exits and the arms touch no state, so the cursor is likewise
returned unchanged. -/
def nextIndex (len index : Nat) (k : Key) : Nat :=
  match k with
  | Key.up => if index > 0 then index - 1 else index
  | Key.down => if index < usizeWrapSub1 len then index + 1 else index
  | _ => index

/-- The selection loop of `select_commit_message`, run from cursor
`index` on the queue `keys` of pending input events. -/
def selectLoop (commit_messages : List String) (index : Nat) (keys : List Key) : Outcome :=
  match keys with
  | [] => Outcome.pending
  | Key.up :: rest =>
      selectLoop commit_messages (nextIndex commit_messages.length index Key.up) rest
  | Key.down :: rest =>
      selectLoop commit_messages (nextIndex commit_messages.length index Key.down) rest
  | Key.enter :: _ =>
      if index < commit_messages.length then
        Outcome.selected (commit_messages.getD index "")
      else
        Outcome.outOfRange
  | Key.esc :: _ => Outcome.cancelled
  | Key.other :: rest => selectLoop commit_messages index rest

/-- `select_commit_message`: run the loop with the initial cursor
`let mut index: usize = 0;`. -/
def select_commit_message (commit_messages : List String) (keys : List Key) : Outcome :=
  selectLoop commit_messages 0 keys

lemma selectLoop_nil (msgs : List String) (i : Nat) :
    selectLoop msgs i [] = Outcome.pending := rfl

lemma selectLoop_up (msgs : List String) (i : Nat) (keys : List Key) :
    selectLoop msgs i (Key.up :: keys) =
      selectLoop msgs (nextIndex msgs.length i Key.up) keys := rfl

lemma selectLoop_down (msgs : List String) (i : Nat) (keys : List Key) :
    selectLoop msgs i (Key.down :: keys) =
      selectLoop msgs (nextIndex msgs.length i Key.down) keys := rfl

lemma selectLoop_enter (msgs : List String) (i : Nat) (keys : List Key) :
    selectLoop msgs i (Key.enter :: keys) =
      if i < msgs.length then Outcome.selected (msgs.getD i "") else Outcome.outOfRange := rfl

lemma selectLoop_escKey (msgs : List String) (i : Nat) (keys : List Key) :
    selectLoop msgs i (Key.esc :: keys) = Outcome.cancelled := rfl

lemma selectLoop_other (msgs : List String) (i : Nat) (keys : List Key) :
    selectLoop msgs i (Key.other :: keys) = selectLoop msgs i keys := rfl

lemma usizeWrapSub1_eq {n : Nat} (h1 : 1 ≤ n) :
    usizeWrapSub1 n = n - 1 := by
  unfold usizeWrapSub1
  rw [if_neg (by omega)]

lemma nextIndex_lt {len index : Nat} (k : Key) (h0 : 0 < len)
    (hidx : index < len) : nextIndex len index k < len := by
  have hw := usizeWrapSub1_eq h0
  cases k <;> simp only [nextIndex, hw] <;> (try split) <;> omega

lemma selectLoop_replicate_down (msgs : List String)
    (k index : Nat) (hidx : index < msgs.length) :
    selectLoop msgs index (List.replicate k Key.down ++ [Key.enter]) =
      Outcome.selected (msgs.getD (min (index + k) (msgs.length - 1)) "") := by
  induction k generalizing index with
  | zero =>
      have hmin : min (index + 0) (msgs.length - 1) = index := by omega
      rw [hmin, List.replicate, List.nil_append, selectLoop_enter, if_pos hidx]
  | succ k ih =>
      have hw : usizeWrapSub1 msgs.length = msgs.length - 1 :=
        usizeWrapSub1_eq (by omega)
      rw [List.replicate_succ, List.cons_append, selectLoop_down]
      by_cases hc : index < msgs.length - 1
      · have hstep : nextIndex msgs.length index Key.down = index + 1 := by
          simp [nextIndex, hw, hc]
        rw [hstep, ih (index + 1) (by omega)]
        have hmin : min (index + 1 + k) (msgs.length - 1) =
            min (index + (k + 1)) (msgs.length - 1) := by omega
        rw [hmin]
      · have hstep : nextIndex msgs.length index Key.down = index := by
          simp [nextIndex, hw, hc]
        rw [hstep, ih index hidx]
        have hmin : min (index + k) (msgs.length - 1) =
            min (index + (k + 1)) (msgs.length - 1) := by omega
        rw [hmin]

/-- Claim C1: for every non-empty candidate list of length n and every
k ≥ 0, running the selector on k Down events followed by Enter returns
`Selected(candidates[min(k, n-1)])`. -/
theorem selector_down_k_enter (msgs : List String) (k : Nat) (hne : msgs ≠ []) :
    select_commit_message msgs (List.replicate k Key.down ++ [Key.enter]) =
      Outcome.selected (msgs.getD (min k (msgs.length - 1)) "") := by
  have h0 : 0 < msgs.length := List.length_pos.mpr hne
  have h := selectLoop_replicate_down msgs k 0 h0
  simpa [select_commit_message] using h

/-- Witness for C1, the spec's end-to-end scenario: candidates
["Enter a custom message...", "fix: handle nil pointer", "fix bug"] with
keys [Down, Down, Enter] select "fix bug". -/
theorem selector_down_k_enter_witness :
    select_commit_message
        ["Enter a custom message...", "fix: handle nil pointer", "fix bug"]
        (List.replicate 2 Key.down ++ [Key.enter]) =
      Outcome.selected "fix bug" := by
  have h := selector_down_k_enter
    ["Enter a custom message...", "fix: handle nil pointer", "fix bug"] 2
    (by decide)
  simpa using h

lemma selectLoop_no_exit (msgs : List String) :
    ∀ ks : List Key, (∀ k ∈ ks, k ≠ Key.enter ∧ k ≠ Key.esc) →
      ∀ index, selectLoop msgs index ks = Outcome.pending := by
  intro ks
  induction ks with
  | nil => intro _ index; exact selectLoop_nil msgs index
  | cons k rest ih =>
      intro h index
      have hk := h k (List.mem_cons_self k rest)
      have hrest : ∀ x ∈ rest, x ≠ Key.enter ∧ x ≠ Key.esc :=
        fun x hx => h x (List.mem_cons_of_mem k hx)
      cases k with
      | up => rw [selectLoop_up]; exact ih hrest _
      | down => rw [selectLoop_down]; exact ih hrest _
      | enter => exact absurd rfl hk.1
      | esc => exact absurd rfl hk.2
      | other => rw [selectLoop_other]; exact ih hrest _

lemma selectLoop_append_esc (msgs : List String) (rest : List Key) :
    ∀ hist : List Key, (∀ k ∈ hist, k ≠ Key.enter ∧ k ≠ Key.esc) →
      ∀ index, selectLoop msgs index (hist ++ Key.esc :: rest) = Outcome.cancelled := by
  intro hist
  induction hist with
  | nil => intro _ index; rw [List.nil_append, selectLoop_escKey]
  | cons k tail ih =>
      intro h index
      have hk := h k (List.mem_cons_self k tail)
      have htail : ∀ x ∈ tail, x ≠ Key.enter ∧ x ≠ Key.esc :=
        fun x hx => h x (List.mem_cons_of_mem k hx)
      rw [List.cons_append]
      cases k with
      | up => rw [selectLoop_up]; exact ih htail _
      | down => rw [selectLoop_down]; exact ih htail _
      | enter => exact absurd rfl hk.1
      | esc => exact absurd rfl hk.2
      | other => rw [selectLoop_other]; exact ih htail _

/-- Claim C3: for every non-empty candidate list and every key sequence,
delivering Escape at any point — after any history of keys that end
neither the loop nor the session (Up, Down, or other keys) — makes the
selector return `Cancelled`, and it never returns `Selected` in that
run. -/
theorem selector_esc_cancels (msgs : List String) (hist rest : List Key) (s : String)
    (hne : msgs ≠ []) (hh : ∀ k ∈ hist, k ≠ Key.enter ∧ k ≠ Key.esc) :
    select_commit_message msgs (hist ++ Key.esc :: rest) = Outcome.cancelled ∧
      select_commit_message msgs (hist ++ Key.esc :: rest) ≠ Outcome.selected s := by
  have h := selectLoop_append_esc msgs rest hist hh 0
  exact ⟨h, by rw [select_commit_message, h]; intro hfalse; cases hfalse⟩

/-- Witness for C3, the spec's end-to-end scenario: candidates
["a", "b", "c"] with keys [Down, Escape] yield `Cancelled`. -/
theorem selector_esc_cancels_witness :
    select_commit_message ["a", "b", "c"] ([Key.down] ++ Key.esc :: []) =
        Outcome.cancelled ∧
      select_commit_message ["a", "b", "c"] ([Key.down] ++ Key.esc :: []) ≠
        Outcome.selected "a" :=
  selector_esc_cancels ["a", "b", "c"] [Key.down] [] "a" (by decide) (by decide)

/-- Claim C4: for every non-empty candidate list of length n, Up at
cursor 0 leaves the cursor at 0 and Down at cursor n-1 leaves it at n-1
(clamping at both bounds, no wraparound), so those keypresses do not
affect the eventual selection: the run from the initial state on
`Up :: ks` equals the run on `ks`, and the run from cursor n-1 on
`Down :: ks` equals the run on `ks`. -/
theorem selector_clamps (msgs : List String) (ks : List Key) (hne : msgs ≠ []) :
    nextIndex msgs.length 0 Key.up = 0 ∧
      nextIndex msgs.length (msgs.length - 1) Key.down = msgs.length - 1 ∧
      select_commit_message msgs (Key.up :: ks) = select_commit_message msgs ks ∧
      selectLoop msgs (msgs.length - 1) (Key.down :: ks) =
        selectLoop msgs (msgs.length - 1) ks := by
  have h0 : 0 < msgs.length := List.length_pos.mpr hne
  have hw : usizeWrapSub1 msgs.length = msgs.length - 1 := usizeWrapSub1_eq h0
  have hup : nextIndex msgs.length 0 Key.up = 0 := by simp [nextIndex]
  have hdown : nextIndex msgs.length (msgs.length - 1) Key.down = msgs.length - 1 := by
    simp [nextIndex, hw]
  refine ⟨hup, hdown, ?_, ?_⟩
  · show selectLoop msgs 0 (Key.up :: ks) = selectLoop msgs 0 ks
    rw [selectLoop_up, hup]
  · rw [selectLoop_down, hdown]

/-- Witness for C4 at candidates ["a", "b"] with continuation [Enter]. -/
theorem selector_clamps_witness :
    nextIndex 2 0 Key.up = 0 ∧
      nextIndex 2 1 Key.down = 1 ∧
      select_commit_message ["a", "b"] (Key.up :: [Key.enter]) =
        select_commit_message ["a", "b"] [Key.enter] ∧
      selectLoop ["a", "b"] 1 (Key.down :: [Key.enter]) =
        selectLoop ["a", "b"] 1 [Key.enter] :=
  selector_clamps ["a", "b"] [Key.enter] (by decide)

/-- Claim C5: for every non-empty candidate list the cursor invariant
`0 <= cursor < length` holds initially (`cursor = 0`, and `0 < length`)
and is preserved by the dispatch of every key event: from any in-range
cursor, the cursor after dispatching any key is again in range
(for Nat the lower bound `0 <= cursor` is automatic). -/
theorem cursor_invariant (msgs : List String) (index : Nat) (k : Key)
    (hne : msgs ≠ []) (hidx : index < msgs.length) :
    0 < msgs.length ∧ nextIndex msgs.length index k < msgs.length :=
  ⟨List.length_pos.mpr hne, nextIndex_lt k (List.length_pos.mpr hne) hidx⟩

/-- Witness for C5 at candidates ["a"], cursor 0, key Down. -/
theorem cursor_invariant_witness :
    0 < [("a" : String)].length ∧
      nextIndex [("a" : String)].length 0 Key.down < [("a" : String)].length :=
  cursor_invariant ["a"] 0 Key.down (by decide) (by decide)

/-- Claim C6: for every non-empty candidate list, the selector loop never
terminates on a key sequence containing no Enter and no Escape — after
consuming any such sequence it is still waiting for input (`pending`) —
and a key other than Up/Down/Enter/Esc leaves the state unchanged, the
loop simply continuing: only Enter or Escape end the session. -/
theorem selector_liveness (msgs : List String) (index : Nat) (ks ks2 : List Key)
    (hne : msgs ≠ []) (hks : ∀ k ∈ ks, k ≠ Key.enter ∧ k ≠ Key.esc) :
    selectLoop msgs index ks = Outcome.pending ∧
      selectLoop msgs index (Key.other :: ks2) = selectLoop msgs index ks2 :=
  ⟨selectLoop_no_exit msgs ks hks index, selectLoop_other msgs index ks2⟩

/-- Witness for C6 at candidates ["a"], keys [Up, Down, other]. -/
theorem selector_liveness_witness :
    selectLoop ["a"] 0 [Key.up, Key.down, Key.other] = Outcome.pending ∧
      selectLoop ["a"] 0 (Key.other :: [Key.enter]) = selectLoop ["a"] 0 [Key.enter] :=
  selector_liveness ["a"] 0 [Key.up, Key.down, Key.other] [Key.enter]
    (by decide) (by decide)

/-- Claim C2 concerns the selector on an empty candidate list.  The code
does not produce an explicit EmptyInput error: on Enter it evaluates
`commit_messages[index]` with `index = 0` out of range and panics.  This
theorem evaluates the model at that failing input. -/
theorem selector_empty_list_out_of_range :
    select_commit_message [] [Key.enter] = Outcome.outOfRange := rfl

/-- Rust's `char::is_whitespace`: the Unicode `White_Space` property.
Its 25 code points (PropList.txt) are U+0009..U+000D, U+0020, U+0085,
U+00A0, U+1680, U+2000..U+200A, U+2028, U+2029, U+202F, U+205F and
U+3000 — notably including the ASCII vertical tab U+000B and form feed
U+000C, which Lean's own `Char.isWhitespace` does not cover. -/
def isRustWhitespace (c : Char) : Bool :=
  (0x09 ≤ c.toNat && c.toNat ≤ 0x0D) || c.toNat = 0x20 || c.toNat = 0x85 ||
    c.toNat = 0xA0 || c.toNat = 0x1680 ||
    (0x2000 ≤ c.toNat && c.toNat ≤ 0x200A) || c.toNat = 0x2028 ||
    c.toNat = 0x2029 || c.toNat = 0x202F || c.toNat = 0x205F || c.toNat = 0x3000

/-- `str::trim` on the choice content: drop every leading and trailing
character with the Unicode `White_Space` property. -/
def trimChars (s : List Char) : List Char :=
  ((s.dropWhile isRustWhitespace).reverse.dropWhile isRustWhitespace).reverse

/-- `s.starts_with('"')`. -/
def startsWithQuote : List Char → Bool
  | [] => false
  | c :: _ => c = '"'

/-- `s.ends_with('"')`. -/
def endsWithQuote (s : List Char) : Bool :=
  match s.getLast? with
  | some c => c = '"'
  | none => false

/-- Per-choice post-processing in `get_suggested_commit_messages`
(main.rs lines 60-68): `let s = content.trim();` then
`if s.starts_with('"') && s.ends_with('"') { &s[1..s.len() - 1] } else { &s }`.
The slice `&s[1..s.len() - 1]` is valid only when its start does not
exceed its end, i.e. `1 <= s.len() - 1`; otherwise Rust panics
("slice index starts at 1 but ends at 0"), modelled as `none`.  The
boundary characters are the one-byte `"` whenever the slice is taken, so
byte indices and character indices agree here. -/
def processChoiceContent (content : List Char) : Option (List Char) :=
  let s := trimChars content
  if startsWithQuote s && endsWithQuote s then
    if 1 ≤ s.length - 1 then some ((s.drop 1).take (s.length - 1 - 1))
    else none
  else some s

/-- `get_suggested_commit_messages`, restricted to its post-processing of
the choice contents returned by the HTTP call (the request itself is an
external collaborator): the `map` over `response.choices`.  `none` means
some choice made the per-choice slice panic. -/
def get_suggested_commit_messages (contents : List (List Char)) : Option (List (List Char)) :=
  contents.mapM processChoiceContent

lemma endsWithQuote_append (mid : List Char) :
    endsWithQuote ('"' :: (mid ++ ['"'])) = true := by
  unfold endsWithQuote
  rw [show ('"' :: (mid ++ ['"'])) = (('"' :: mid) ++ ['"']) from rfl]
  rw [List.getLast?_concat]
  simp

lemma quote_strip_wrapped (content mid : List Char)
    (h : trimChars content = '"' :: (mid ++ ['"'])) :
    processChoiceContent content = some mid := by
  unfold processChoiceContent
  rw [h]
  have hstart : startsWithQuote ('"' :: (mid ++ ['"'])) = true := by
    simp [startsWithQuote]
  have hlen : ('"' :: (mid ++ ['"'])).length = mid.length + 2 := by simp
  dsimp only
  rw [hstart, endsWithQuote_append, Bool.and_self, if_pos rfl, hlen]
  rw [if_pos (by omega)]
  congr 1
  rw [List.drop_one, List.tail_cons]
  have : mid.length + 2 - 1 - 1 = mid.length := by omega
  rw [this, List.take_left]

lemma quote_strip_unwrapped (content : List Char)
    (h : startsWithQuote (trimChars content) = false ∨
      endsWithQuote (trimChars content) = false) :
    processChoiceContent content = some (trimChars content) := by
  unfold processChoiceContent
  dsimp only
  rcases h with h | h <;> rw [h] <;> simp

lemma startsWithQuote_cons (c : Char) (rest : List Char) :
    startsWithQuote (c :: rest) = true ↔ c = '"' := by
  simp [startsWithQuote]

lemma processChoiceContent_isSome (content : List Char)
    (h : trimChars content ≠ ['"']) :
    (processChoiceContent content).isSome = true := by
  unfold processChoiceContent
  dsimp only
  by_cases hb : (startsWithQuote (trimChars content) && endsWithQuote (trimChars content)) = true
  · rw [if_pos hb]
    by_cases hlen : 1 ≤ (trimChars content).length - 1
    · rw [if_pos hlen]; rfl
    · exfalso
      have hstart : startsWithQuote (trimChars content) = true := Bool.and_elim_left hb
      cases hq : trimChars content with
      | nil => rw [hq] at hstart; exact absurd hstart (by simp [startsWithQuote])
      | cons c rest =>
          rw [hq] at hstart
          have hc : c = '"' := (startsWithQuote_cons c rest).mp hstart
          rw [hq] at hlen
          have hrest : rest = [] := by
            cases rest with
            | nil => rfl
            | cons x xs => exfalso; apply hlen; simp
          apply h
          rw [hq, hc, hrest]
  · rw [if_neg hb]; rfl

/-- Claim C7 counterexample: the post-processing does more than strip one
quote pair — it also trims whitespace.  The content " hi" neither starts
nor ends with a double quote, yet it is not returned unchanged. -/
theorem quote_strip_not_only_quote_pair :
    processChoiceContent [' ', 'h', 'i'] = some ['h', 'i'] ∧
      ([' ', 'h', 'i'] : List Char) ≠ ['h', 'i'] :=
  ⟨rfl, by decide⟩

/-- Claim C7 as amended: after first trimming whitespace from both ends,
the post-processing strips exactly one matching pair of leading/trailing
double quotes when the trimmed string both starts and ends with one
(inner quotes are untouched: a trimmed content `'"' :: mid ++ ['"']`
yields exactly `mid`), and when the trimmed string does not both start
and end with a double quote it is returned without further change. -/
theorem quote_strip_after_trim (content mid : List Char) :
    (trimChars content = '"' :: (mid ++ ['"']) →
        processChoiceContent content = some mid) ∧
      (startsWithQuote (trimChars content) = false ∨
          endsWithQuote (trimChars content) = false →
        processChoiceContent content = some (trimChars content)) :=
  ⟨quote_strip_wrapped content mid, quote_strip_unwrapped content⟩

/-- Witness for the amended C7: "\"hi\"" loses its quote pair and "hi"
passes through unchanged. -/
theorem quote_strip_after_trim_witness :
    processChoiceContent ['"', 'h', 'i', '"'] = some ['h', 'i'] ∧
      processChoiceContent ['h', 'i'] = some ['h', 'i'] := by
  constructor
  · exact (quote_strip_after_trim ['"', 'h', 'i', '"'] ['h', 'i']).1 (by decide)
  · have h := (quote_strip_after_trim ['h', 'i'] []).2 (by decide)
    rw [h]
    rfl

/-- Claim C10 counterexample: on a content whose trimmed form is the
single character `"`, both `starts_with` and `ends_with` see the same
quote, and the slice `&s[1..s.len() - 1]` is `&s[1..0]`, whose start
exceeds its end: the code panics instead of returning a string. -/
theorem quote_strip_lone_quote_panics :
    (processChoiceContent ['"']).isSome = false := rfl

/-- Claim C10 as amended: the per-message transformation stays within
bounds and returns a string for every content except those whose trimmed
form is exactly the single double-quote character, where it panics. -/
theorem quote_strip_total_unless_lone_quote (content : List Char)
    (h : trimChars content ≠ ['"']) :
    (processChoiceContent content).isSome = true :=
  processChoiceContent_isSome content h

/-- Witness for the amended C10 at content "fix". -/
theorem quote_strip_total_witness :
    (processChoiceContent ['f', 'i', 'x']).isSome = true :=
  quote_strip_total_unless_lone_quote ['f', 'i', 'x'] (by decide)

/-- Which way `main` proceeds once the staged diff has been retrieved
successfully (main.rs lines 158-178): `fetchSuggestions` is the code path
that calls `get_suggested_commit_messages` and, on its success,
`select_commit_message`; neither is reached on the other branch. -/
inductive MainStep where
  | nothingToCommit
  | fetchSuggestions
deriving DecidableEq

/-- The branch `if git_diff.trim().is_empty() { eprintln!("no changes
added to commit ..."); return; }` of `main` (lines 158-161). -/
def mainDiffDispatch (git_diff : List Char) : MainStep :=
  if (trimChars git_diff).isEmpty then MainStep.nothingToCommit
  else MainStep.fetchSuggestions

/-- Claim C9: when the staged-diff retrieval succeeds but the result is
empty after trimming (whitespace-only), `main` reports "nothing to
commit" and returns; the branch that invokes the candidate generator and
the selector is not taken. -/
theorem nothing_to_commit_on_blank_diff (d : List Char) (h : trimChars d = []) :
    mainDiffDispatch d = MainStep.nothingToCommit ∧
      mainDiffDispatch d ≠ MainStep.fetchSuggestions := by
  constructor <;> simp [mainDiffDispatch, h]

/-- Witness for C9 at a whitespace-only diff of space, form feed
(U+000C, which Rust's `str::trim` strips) and newline. -/
theorem nothing_to_commit_witness :
    mainDiffDispatch [' ', '\x0C', '\n'] = MainStep.nothingToCommit ∧
      mainDiffDispatch [' ', '\x0C', '\n'] ≠ MainStep.fetchSuggestions :=
  nothing_to_commit_on_blank_diff [' ', '\x0C', '\n'] (by decide)

/-- Raw-mode operations on the terminal performed by one key-read step. -/
inductive TermOp where
  | enableRaw
  | disableRaw
deriving DecidableEq

/-- One key-read step of the selector (main.rs lines 87-89):
`terminal::enable_raw_mode().unwrap(); let key_event =
event::read().unwrap(); terminal::disable_raw_mode().unwrap();`.
The argument is the result of `event::read()` (`none` = the read
failed).  On failure the `.unwrap()` panics, abandoning the function
before `disable_raw_mode` runs — there is no guard or catch — so the
emitted trace of terminal operations stops after `enableRaw`. -/
def keyReadStep : Option Key → List TermOp × Option Key
  | some e => ([TermOp.enableRaw, TermOp.disableRaw], some e)
  | none => ([TermOp.enableRaw], none)

/-- Whether the terminal is left in raw mode after a trace of toggles
(it starts in normal, non-raw mode). -/
def rawModeAfter (ops : List TermOp) : Bool :=
  ops.foldl (fun _ op =>
    match op with
    | TermOp.enableRaw => true
    | TermOp.disableRaw => false) false

/-- Claim C8 concerns raw-mode restoration on every exit path of a
key-read step.  On a successful read raw mode is indeed restored, but
when `event::read()` fails the step leaves the terminal in raw mode:
the panic from `.unwrap()` propagates before `disable_raw_mode` is
reached. -/
theorem raw_mode_left_enabled_on_read_failure :
    rawModeAfter (keyReadStep none).1 = true ∧
      ∀ e : Key, rawModeAfter (keyReadStep (some e)).1 = false :=
  ⟨rfl, fun _ => rfl⟩
